import Mathlib

/-!
Verification of the inventory ledger and stock-movement engine of a
warehouse/procurement management application (`src/app.py`).

The core consists of four functions operating on two SQL tables:

* `inventory` (the Ledger Store): rows `(id, warehouse_id, item_id, bin_id, qty)`
  with `id` an autoincrement primary key;
* `stock_movements` (the Movement Log): append-only rows recording every
  quantity change.

The functions are `get_or_create_inv`, `inventory_in`, `inventory_out` and
`transfer_stock`.  Each caller wraps an engine call in a
`with engine.begin() as conn:` block and catches exceptions *outside* that
block, so a `ValueError` raised by `inventory_out` rolls the whole
transaction back: the database is left exactly as before the call.  We model
this with `runOp`, which returns the original state together with the error
when the underlying operation fails.

Quantities are modelled as exact rationals (`ℚ`), following the design's
numeric semantics ("all quantities are exact decimal values").  The
`movement_no` column (a timestamp-based identifier) is modelled by its kind
prefix only; no property below depends on the timestamp part.
-/

/-- One row of the `inventory` table (a StockLine of the Ledger Store). -/
structure InvRow where
  id : Nat
  warehouse_id : Nat
  item_id : Nat
  bin_id : Option Nat
  qty : ℚ
deriving Repr, DecidableEq

/-- The `movement_type` enum of the `stock_movements` table. -/
inductive MType where
  | IN
  | OUT
  | TRANSFER
deriving Repr, DecidableEq

/-- One row of the `stock_movements` table (a MovementRecord of the Movement
Log).  `movement_no_pfx` keeps the kind prefix of the generated movement
number (`MIN`/`MOUT`/`MTR`). -/
structure Movement where
  movement_no_pfx : String
  movement_type : MType
  warehouse_id : Nat
  warehouse_to_id : Option Nat
  item_id : Nat
  bin_id : Option Nat
  qty : ℚ
  reason : String
  ref_entity : String
  ref_id : Nat
deriving Repr, DecidableEq

/-- Database state: the `inventory` table (in insertion order, with the next
autoincrement id) and the append-only `stock_movements` table. -/
structure DB where
  inv : List InvRow
  next_id : Nat
  moves : List Movement
deriving Repr, DecidableEq

/-- The epsilon tolerance used by `inventory_out`: `1e-6`. -/
def eps : ℚ := 1 / 1000000

/-- The key test used by the `SELECT ... WHERE` clauses of
`get_or_create_inv`: the row matches the `(warehouse_id, item_id, bin_id)`
key. -/
def keyMatches (r : InvRow) (w i : Nat) (b : Option Nat) : Bool :=
  r.warehouse_id == w && r.item_id == i && r.bin_id == b

/-- The read `SELECT ... WHERE key ... .first()`: the first `inventory` row
matching the key, if any. -/
def findInv (inv : List InvRow) (w i : Nat) (b : Option Nat) : Option InvRow :=
  inv.find? (fun r => keyMatches r w i b)

/-- The function `get_or_create_inv(conn, warehouse_id, item_id, bin_id)`:
return the first row matching the key; if there is none, insert a fresh row
with quantity 0 and return it (the source re-selects after the insert, which
yields exactly the fresh row). -/
def get_or_create_inv (db : DB) (w i : Nat) (b : Option Nat) : DB × InvRow :=
  match findInv db.inv w i b with
  | some r => (db, r)
  | none =>
    let r0 : InvRow := ⟨db.next_id, w, i, b, 0⟩
    (⟨db.inv ++ [r0], db.next_id + 1, db.moves⟩, r0)

/-- The write `UPDATE inventory SET qty = v WHERE id = rid`. -/
def updateQty (inv : List InvRow) (rid : Nat) (v : ℚ) : List InvRow :=
  inv.map (fun r => if r.id == rid then { r with qty := v } else r)

/-- The MovementRecord appended by `inventory_in`.  Note that the source
hard-codes `reason="GRN"`; the `ref_entity` argument goes into the
`ref_entity` column. -/
def inRec (w i : Nat) (b : Option Nat) (q : ℚ) (re : String) (rid : Nat) : Movement :=
  ⟨"MIN", MType.IN, w, none, i, b, q, "GRN", re, rid⟩

/-- The MovementRecord appended by `inventory_out` (reason hard-coded to
`"DELIVERY"`). -/
def outRec (w i : Nat) (b : Option Nat) (q : ℚ) (re : String) (rid : Nat) : Movement :=
  ⟨"MOUT", MType.OUT, w, none, i, b, q, "DELIVERY", re, rid⟩

/-- The third MovementRecord appended by `transfer_stock`: the TRANSFER
marker, carrying both the source (`warehouse_id`) and the destination
(`warehouse_to_id`), with `ref_entity="TRANSFER"` and the sentinel
`ref_id=0`. -/
def trRec (f t i : Nat) (q : ℚ) (reason : String) : Movement :=
  ⟨"MTR", MType.TRANSFER, f, some t, i, none, q, reason, "TRANSFER", 0⟩

/-- The function `inventory_in(conn, warehouse_id, item_id, qty, ref_entity,
ref_id, bin_id)`: fetch-or-create the StockLine, add `q`, persist, append
one IN record.  There is no validation of `q`. -/
def inventory_in (db : DB) (w i : Nat) (q : ℚ) (re : String) (rid : Nat) (b : Option Nat) : DB :=
  let gr := get_or_create_inv db w i b
  let new_qty := gr.2.qty + q
  ⟨updateQty gr.1.inv gr.2.id new_qty, gr.1.next_id, gr.1.moves ++ [inRec w i b q re rid]⟩

/-- The error raised by `inventory_out` (`ValueError("Insufficient stock:
item {item_id} in WH {warehouse_id} has {row.qty} < {qty}")`), carrying the
warehouse, the item, the current and the requested quantity. -/
inductive EngineError where
  | InsufficientStock (warehouse_id item_id : Nat) (cur req : ℚ)
deriving Repr, DecidableEq

/-- The function `inventory_out(conn, warehouse_id, item_id, qty,
ref_entity, ref_id, bin_id)`: fetch-or-create the StockLine; if
`current − q < −1e-6` raise InsufficientStock (before any write), otherwise
persist the decrease and append one OUT record. -/
def inventory_out (db : DB) (w i : Nat) (q : ℚ) (re : String) (rid : Nat) (b : Option Nat) :
    Except EngineError DB :=
  let gr := get_or_create_inv db w i b
  let new_qty := gr.2.qty - q
  if new_qty < -eps then
    .error (.InsufficientStock w i gr.2.qty q)
  else
    .ok ⟨updateQty gr.1.inv gr.2.id new_qty, gr.1.next_id, gr.1.moves ++ [outRec w i b q re rid]⟩

/-- The function `transfer_stock(conn, wh_from, wh_to, item_id, qty,
reason)`: OUT at the source, then IN at the destination, then the TRANSFER
marker record.  Both legs use `ref_entity="TRANSFER"`, `ref_id=0` and the
unbinned pool (`bin_id=None`).  A failure of the OUT leg propagates before
the IN leg runs. -/
def transfer_stock (db : DB) (f t i : Nat) (q : ℚ) (reason : String) :
    Except EngineError DB :=
  match inventory_out db f i q "TRANSFER" 0 none with
  | .error e => .error e
  | .ok db1 =>
    let db2 := inventory_in db1 t i q "TRANSFER" 0 none
    .ok ⟨db2.inv, db2.next_id, db2.moves ++ [trRec f t i q reason]⟩

/-- One engine call, as issued by the workflow collaborators. -/
inductive Op where
  | opIn (w i : Nat) (q : ℚ) (re : String) (rid : Nat) (b : Option Nat)
  | opOut (w i : Nat) (q : ℚ) (re : String) (rid : Nat) (b : Option Nat)
  | opTransfer (f t i : Nat) (q : ℚ)
deriving Repr, DecidableEq

/-- The quantity argument of an engine call. -/
def opQty : Op → ℚ
  | .opIn _ _ q _ _ _ => q
  | .opOut _ _ q _ _ _ => q
  | .opTransfer _ _ _ q => q

/-- One engine call run as its own transaction (`with engine.begin()` with
the exception handler outside the block): if the operation raises, the whole
transaction — including any row inserted by `get_or_create_inv` — is rolled
back, so the state returned with the error is the original one. -/
def runOp (db : DB) : Op → DB × Option EngineError
  | .opIn w i q re rid b => (inventory_in db w i q re rid b, none)
  | .opOut w i q re rid b =>
    match inventory_out db w i q re rid b with
    | .ok db2 => (db2, none)
    | .error e => (db, some e)
  | .opTransfer f t i q =>
    match transfer_stock db f t i q "TRANSFER" with
    | .ok db2 => (db2, none)
    | .error e => (db, some e)

/-- The empty database (autoincrement ids start at 1). -/
def emptyDB : DB := ⟨[], 1, []⟩

/-- Run a sequence of engine calls from a given state. -/
def runFrom (db : DB) : List Op → DB
  | [] => db
  | op :: rest => runFrom (runOp db op).1 rest

/-- Run a sequence of engine calls from the empty database. -/
def run (ops : List Op) : DB := runFrom emptyDB ops

/-- The quantity the engine would read for a key: the `qty` of the first
matching row, or 0 if the row is absent (which is what a subsequent
`get_or_create_inv` would materialise). -/
def curQty (db : DB) (w i : Nat) (b : Option Nat) : ℚ :=
  match findInv db.inv w i b with
  | some r => r.qty
  | none => 0

/-- A movement affects the `(warehouse_id, item_id, bin_id)` key. -/
def mvMatches (m : Movement) (w i : Nat) (b : Option Nat) : Bool :=
  m.warehouse_id == w && m.item_id == i && m.bin_id == b

/-- Signed contribution of a movement to its key: IN adds, OUT subtracts; a
TRANSFER marker contributes nothing itself (the transfer is modelled by its
linked OUT+IN pair of leg records). -/
def signedQty (m : Movement) : ℚ :=
  match m.movement_type with
  | .IN => m.qty
  | .OUT => -m.qty
  | .TRANSFER => 0

/-- Signed sum of the movements of a list affecting a key. -/
def sumAt (ms : List Movement) (w i : Nat) (b : Option Nat) : ℚ :=
  ((ms.filter (fun m => mvMatches m w i b)).map signedQty).sum

/-- Signed sum over the Movement Log of all records affecting a key. -/
def movesSum (db : DB) (w i : Nat) (b : Option Nat) : ℚ :=
  sumAt db.moves w i b

/-! ### Basic lemmas about keys, lookup and update -/

/-- The `(warehouse_id, item_id, bin_id)` key of an inventory row. -/
def rowKey (r : InvRow) : Nat × Nat × Option Nat := (r.warehouse_id, r.item_id, r.bin_id)

theorem keyMatches_iff {r : InvRow} {w i : Nat} {b : Option Nat} :
    keyMatches r w i b = true ↔ rowKey r = (w, i, b) := by
  simp [keyMatches, rowKey, Prod.ext_iff, and_assoc]

@[simp] theorem findInv_nil {w i : Nat} {b : Option Nat} : findInv [] w i b = none := rfl

theorem findInv_cons {r : InvRow} {l : List InvRow} {w i : Nat} {b : Option Nat} :
    findInv (r :: l) w i b = if keyMatches r w i b = true then some r else findInv l w i b := by
  unfold findInv
  rw [List.find?]
  cases h : keyMatches r w i b <;> simp [h]

theorem findInv_append {l1 l2 : List InvRow} {w i : Nat} {b : Option Nat} :
    findInv (l1 ++ l2) w i b =
      match findInv l1 w i b with
      | some r => some r
      | none => findInv l2 w i b := by
  induction l1 with
  | nil => simp
  | cons r l ih =>
    rw [List.cons_append, findInv_cons, findInv_cons]
    cases h : keyMatches r w i b <;> simp [h, ih]

theorem findInv_eq_none_iff {l : List InvRow} {w i : Nat} {b : Option Nat} :
    findInv l w i b = none ↔ ∀ r ∈ l, keyMatches r w i b = false := by
  simp [findInv, List.find?_eq_none]

theorem findInv_mem {l : List InvRow} {w i : Nat} {b : Option Nat} {r : InvRow}
    (h : findInv l w i b = some r) : r ∈ l :=
  List.mem_of_find?_eq_some h

theorem findInv_matches {l : List InvRow} {w i : Nat} {b : Option Nat} {r : InvRow}
    (h : findInv l w i b = some r) : keyMatches r w i b = true := by
  unfold findInv at h
  have h2 := List.find?_some h
  simpa using h2

/-- The per-row function of `updateQty`. -/
def updRow (rid : Nat) (v : ℚ) (r : InvRow) : InvRow :=
  if r.id == rid then { r with qty := v } else r

theorem updateQty_eq_map {l : List InvRow} {rid : Nat} {v : ℚ} :
    updateQty l rid v = l.map (updRow rid v) := rfl

@[simp] theorem updRow_id {rid : Nat} {v : ℚ} {r : InvRow} : (updRow rid v r).id = r.id := by
  unfold updRow; split <;> rfl

@[simp] theorem updRow_rowKey {rid : Nat} {v : ℚ} {r : InvRow} :
    rowKey (updRow rid v r) = rowKey r := by
  unfold updRow; split <;> rfl

@[simp] theorem keyMatches_updRow {rid : Nat} {v : ℚ} {r : InvRow} {w i : Nat} {b : Option Nat} :
    keyMatches (updRow rid v r) w i b = keyMatches r w i b := by
  unfold updRow; split <;> rfl

theorem updRow_of_ne {rid : Nat} {v : ℚ} {r : InvRow} (h : r.id ≠ rid) : updRow rid v r = r := by
  simp [updRow, h]

theorem updRow_of_eq {rid : Nat} {v : ℚ} {r : InvRow} (h : r.id = rid) :
    updRow rid v r = { r with qty := v } := by
  simp [updRow, h]

theorem findInv_updateQty {l : List InvRow} {rid : Nat} {v : ℚ} {w i : Nat} {b : Option Nat} :
    findInv (updateQty l rid v) w i b = (findInv l w i b).map (updRow rid v) := by
  induction l with
  | nil => simp [updateQty]
  | cons r l ih =>
    rw [updateQty_eq_map, List.map_cons, findInv_cons, ← updateQty_eq_map, findInv_cons]
    cases h : keyMatches r w i b <;> simp [h, ih]

theorem updateQty_of_absent {l : List InvRow} {rid : Nat} {v : ℚ}
    (h : ∀ r ∈ l, r.id ≠ rid) : updateQty l rid v = l := by
  rw [updateQty_eq_map]
  conv_rhs => rw [← List.map_id l]
  exact List.map_congr_left fun r hr => updRow_of_ne (h r hr)

/-! ### Well-formedness of a database state

Reachable states have pairwise distinct row ids, pairwise distinct
`(warehouse, item, bin)` keys, and every id below the autoincrement
counter. -/

/-- All inventory row ids are distinct. -/
def UniqIds (l : List InvRow) : Prop := l.Pairwise (fun r s => r.id ≠ s.id)

/-- All inventory row keys are distinct (at most one StockLine per key). -/
def UniqKeys (l : List InvRow) : Prop := l.Pairwise (fun r s => rowKey r ≠ rowKey s)

/-- Every row id is below the autoincrement counter. -/
def IdsBelow (l : List InvRow) (n : Nat) : Prop := ∀ r ∈ l, r.id < n

/-- Well-formed database state. -/
def WF (db : DB) : Prop := UniqIds db.inv ∧ UniqKeys db.inv ∧ IdsBelow db.inv db.next_id

theorem wf_emptyDB : WF emptyDB := by
  refine ⟨List.Pairwise.nil, List.Pairwise.nil, ?_⟩
  intro r hr
  simp [emptyDB] at hr

theorem uniqIds_ne {l : List InvRow} (h : UniqIds l) {r s : InvRow}
    (hr : r ∈ l) (hs : s ∈ l) (hne : r ≠ s) : r.id ≠ s.id :=
  List.Pairwise.forall (fun _ _ hab => (hab ∘ Eq.symm)) h hr hs hne

/-! ### The common write pattern of IN and OUT -/

/-- The successful write pattern shared by `inventory_in` and the success
branch of `inventory_out`: fetch-or-create the row for the key, add `δ` to
its quantity, persist, and append the movement `m`.  `inventory_in` is
definitionally `applyDelta` with `δ = q`; a successful `inventory_out` is
`applyDelta` with `δ = -q`. -/
def applyDelta (db : DB) (w i : Nat) (b : Option Nat) (δ : ℚ) (m : Movement) : DB :=
  let gr := get_or_create_inv db w i b
  ⟨updateQty gr.1.inv gr.2.id (gr.2.qty + δ), gr.1.next_id, gr.1.moves ++ [m]⟩

theorem inventory_in_eq {db : DB} {w i : Nat} {q : ℚ} {re : String} {rid : Nat}
    {b : Option Nat} :
    inventory_in db w i q re rid b = applyDelta db w i b q (inRec w i b q re rid) := rfl

theorem gocr_moves {db : DB} {w i : Nat} {b : Option Nat} :
    (get_or_create_inv db w i b).1.moves = db.moves := by
  cases h : findInv db.inv w i b <;> simp [get_or_create_inv, h]

theorem gocr_qty {db : DB} {w i : Nat} {b : Option Nat} :
    (get_or_create_inv db w i b).2.qty = curQty db w i b := by
  cases h : findInv db.inv w i b <;> simp [get_or_create_inv, curQty, h]

theorem inventory_out_eq {db : DB} {w i : Nat} {q : ℚ} {re : String} {rid : Nat}
    {b : Option Nat} :
    inventory_out db w i q re rid b =
      if curQty db w i b - q < -eps then
        .error (.InsufficientStock w i (curQty db w i b) q)
      else
        .ok (applyDelta db w i b (-q) (outRec w i b q re rid)) := by
  have hq : (get_or_create_inv db w i b).2.qty = curQty db w i b := gocr_qty
  simp only [inventory_out, applyDelta]
  rw [hq, sub_eq_add_neg]

theorem applyDelta_moves {db : DB} {w i : Nat} {b : Option Nat} {δ : ℚ} {m : Movement} :
    (applyDelta db w i b δ m).moves = db.moves ++ [m] := by
  simp only [applyDelta]
  rw [gocr_moves]

theorem applyDelta_curQty_self {db : DB} {w i : Nat} {b : Option Nat} {δ : ℚ} {m : Movement} :
    curQty (applyDelta db w i b δ m) w i b = curQty db w i b + δ := by
  cases h : findInv db.inv w i b with
  | some r =>
    have hid : (r.id == r.id) = true := by simp
    simp [applyDelta, get_or_create_inv, h, curQty, findInv_updateQty, updRow, hid]
  | none =>
    have hkm : keyMatches (⟨db.next_id, w, i, b, 0⟩ : InvRow) w i b = true := by
      simp [keyMatches]
    simp [applyDelta, get_or_create_inv, h, curQty, findInv_updateQty, findInv_append,
      findInv_cons, hkm, updRow]

theorem applyDelta_curQty_other {db : DB} {w i : Nat} {b : Option Nat} {δ : ℚ} {m : Movement}
    {w2 i2 : Nat} {b2 : Option Nat} (hwf : WF db) (hne : (w2, i2, b2) ≠ (w, i, b)) :
    curQty (applyDelta db w i b δ m) w2 i2 b2 = curQty db w2 i2 b2 := by
  obtain ⟨hids, hkeys, hbelow⟩ := hwf
  cases h : findInv db.inv w i b with
  | some r =>
    have hrmem := findInv_mem h
    have hrkey : rowKey r = (w, i, b) := keyMatches_iff.mp (findInv_matches h)
    simp only [applyDelta, get_or_create_inv, h, curQty, findInv_updateQty]
    cases h2 : findInv db.inv w2 i2 b2 with
    | none => simp
    | some s =>
      have hsmem := findInv_mem h2
      have hskey : rowKey s = (w2, i2, b2) := keyMatches_iff.mp (findInv_matches h2)
      have hsr : s ≠ r := by
        intro he
        exact hne (by rw [← hskey, he, hrkey])
      simp [updRow_of_ne (uniqIds_ne hids hsmem hrmem hsr)]
  | none =>
    simp only [applyDelta, get_or_create_inv, h, curQty, findInv_updateQty, findInv_append]
    cases h2 : findInv db.inv w2 i2 b2 with
    | some s =>
      have hid : s.id ≠ db.next_id := Nat.ne_of_lt (hbelow s (findInv_mem h2))
      simp [h2, updRow_of_ne hid]
    | none =>
      have hkm : keyMatches (⟨db.next_id, w, i, b, 0⟩ : InvRow) w2 i2 b2 = false := by
        cases hk : keyMatches (⟨db.next_id, w, i, b, 0⟩ : InvRow) w2 i2 b2
        · rfl
        · exact absurd (keyMatches_iff.mp hk).symm hne
      simp [h2, findInv_cons, hkm]

/-! ### Preservation of well-formedness -/

theorem uniqIds_updateQty {l : List InvRow} {rid : Nat} {v : ℚ} (h : UniqIds l) :
    UniqIds (updateQty l rid v) := by
  rw [updateQty_eq_map, UniqIds, List.pairwise_map]
  exact h.imp fun hab => by simpa using hab

theorem uniqKeys_updateQty {l : List InvRow} {rid : Nat} {v : ℚ} (h : UniqKeys l) :
    UniqKeys (updateQty l rid v) := by
  rw [updateQty_eq_map, UniqKeys, List.pairwise_map]
  exact h.imp fun hab => by simpa using hab

theorem idsBelow_updateQty {l : List InvRow} {rid : Nat} {v : ℚ} {n : Nat}
    (h : IdsBelow l n) : IdsBelow (updateQty l rid v) n := by
  intro r hr
  rw [updateQty_eq_map] at hr
  obtain ⟨s, hs, rfl⟩ := List.mem_map.mp hr
  simpa using h s hs

theorem gocr_wf {db : DB} {w i : Nat} {b : Option Nat} (hwf : WF db) :
    WF (get_or_create_inv db w i b).1 := by
  obtain ⟨hids, hkeys, hbelow⟩ := hwf
  cases h : findInv db.inv w i b with
  | some r => simpa [get_or_create_inv, h] using ⟨hids, hkeys, hbelow⟩
  | none =>
    have hall := findInv_eq_none_iff.mp h
    simp only [get_or_create_inv, h]
    refine ⟨?_, ?_, ?_⟩
    · rw [UniqIds, List.pairwise_append]
      refine ⟨hids, by simp, fun a ha c hc => ?_⟩
      rw [List.mem_singleton] at hc
      subst hc
      exact Nat.ne_of_lt (hbelow a ha)
    · rw [UniqKeys, List.pairwise_append]
      refine ⟨hkeys, by simp, fun a ha c hc => ?_⟩
      rw [List.mem_singleton] at hc
      subst hc
      intro hk
      have hm : keyMatches a w i b = true := keyMatches_iff.mpr hk
      rw [hall a ha] at hm
      exact Bool.false_ne_true hm
    · intro r hr
      rcases List.mem_append.mp hr with h1 | h1
      · exact Nat.lt_succ_of_lt (hbelow r h1)
      · rw [List.mem_singleton] at h1
        subst h1
        exact Nat.lt_succ_self _

theorem applyDelta_wf {db : DB} {w i : Nat} {b : Option Nat} {δ : ℚ} {m : Movement}
    (hwf : WF db) : WF (applyDelta db w i b δ m) := by
  obtain ⟨hids, hkeys, hbelow⟩ := @gocr_wf db w i b hwf
  exact ⟨uniqIds_updateQty hids, uniqKeys_updateQty hkeys, idsBelow_updateQty hbelow⟩

/-! ### The non-negativity predicate -/

/-- Every StockLine holds at least `-eps`. -/
def NN (db : DB) : Prop := ∀ r ∈ db.inv, -eps ≤ r.qty

theorem nn_emptyDB : NN emptyDB := by
  intro r hr
  simp [emptyDB] at hr

theorem neg_eps_le_zero : -eps ≤ (0 : ℚ) := by norm_num [eps]

theorem curQty_ge {db : DB} {w i : Nat} {b : Option Nat} (hnn : NN db) :
    -eps ≤ curQty db w i b := by
  cases h : findInv db.inv w i b with
  | some r => simpa [curQty, h] using hnn r (findInv_mem h)
  | none => simpa [curQty, h] using neg_eps_le_zero

theorem gocr_nn {db : DB} {w i : Nat} {b : Option Nat} (hnn : NN db) :
    NN (get_or_create_inv db w i b).1 := by
  cases h : findInv db.inv w i b with
  | some r => simpa [get_or_create_inv, h] using hnn
  | none =>
    intro r hr
    simp only [get_or_create_inv, h] at hr
    rcases List.mem_append.mp hr with h1 | h1
    · exact hnn r h1
    · rw [List.mem_singleton] at h1
      subst h1
      exact neg_eps_le_zero

theorem applyDelta_nn {db : DB} {w i : Nat} {b : Option Nat} {δ : ℚ} {m : Movement}
    (hnn : NN db) (hv : -eps ≤ curQty db w i b + δ) : NN (applyDelta db w i b δ m) := by
  intro r hr
  simp only [applyDelta] at hr
  rw [updateQty_eq_map] at hr
  obtain ⟨s, hs, rfl⟩ := List.mem_map.mp hr
  unfold updRow
  split
  · show -eps ≤ (get_or_create_inv db w i b).2.qty + δ
    rw [gocr_qty]
    exact hv
  · exact @gocr_nn db w i b hnn s hs

/-! ### The replay-equivalence predicate -/

/-- Every key's current quantity equals the signed movement sum. -/
def ReplEq (db : DB) : Prop :=
  ∀ (w i : Nat) (b : Option Nat), curQty db w i b = movesSum db w i b

theorem replEq_emptyDB : ReplEq emptyDB := by
  intro w i b
  simp [curQty, movesSum, sumAt, emptyDB]

theorem sumAt_append {ms1 ms2 : List Movement} {w i : Nat} {b : Option Nat} :
    sumAt (ms1 ++ ms2) w i b = sumAt ms1 w i b + sumAt ms2 w i b := by
  simp [sumAt, List.filter_append]

theorem sumAt_single {m : Movement} {w i : Nat} {b : Option Nat} :
    sumAt [m] w i b = if mvMatches m w i b = true then signedQty m else 0 := by
  cases h : mvMatches m w i b <;> simp [sumAt, List.filter_cons, h]

/-- The key of a movement record. -/
def mvKey (m : Movement) : Nat × Nat × Option Nat := (m.warehouse_id, m.item_id, m.bin_id)

theorem mvMatches_iff {m : Movement} {w i : Nat} {b : Option Nat} :
    mvMatches m w i b = true ↔ mvKey m = (w, i, b) := by
  simp [mvMatches, mvKey, Prod.ext_iff, and_assoc]

theorem movesSum_applyDelta {db : DB} {w i : Nat} {b : Option Nat} {δ : ℚ} {m : Movement}
    {w2 i2 : Nat} {b2 : Option Nat} :
    movesSum (applyDelta db w i b δ m) w2 i2 b2 =
      movesSum db w2 i2 b2 + (if mvMatches m w2 i2 b2 = true then signedQty m else 0) := by
  rw [movesSum, movesSum, applyDelta_moves, sumAt_append, sumAt_single]

theorem applyDelta_replEq {db : DB} {w i : Nat} {b : Option Nat} {δ : ℚ} {m : Movement}
    (hwf : WF db) (hre : ReplEq db) (hkey : mvKey m = (w, i, b)) (hsgn : signedQty m = δ) :
    ReplEq (applyDelta db w i b δ m) := by
  intro w2 i2 b2
  rw [movesSum_applyDelta]
  by_cases hk : (w2, i2, b2) = (w, i, b)
  · simp only [Prod.ext_iff] at hk
    obtain ⟨rfl, rfl, rfl⟩ := hk
    have hm : mvMatches m w2 i2 b2 = true := mvMatches_iff.mpr hkey
    rw [applyDelta_curQty_self, hre w2 i2 b2, hm, if_pos rfl, hsgn]
  · have hm : mvMatches m w2 i2 b2 = false := by
      cases hmm : mvMatches m w2 i2 b2
      · rfl
      · have hk2 := mvMatches_iff.mp hmm
        rw [hkey] at hk2
        exact absurd hk2.symm hk
    rw [applyDelta_curQty_other hwf hk, hre w2 i2 b2, hm]
    simp

theorem append_marker_replEq {db : DB} {m : Movement} (hre : ReplEq db)
    (hz : signedQty m = 0) : ReplEq ⟨db.inv, db.next_id, db.moves ++ [m]⟩ := by
  intro w2 i2 b2
  show curQty db w2 i2 b2 = sumAt (db.moves ++ [m]) w2 i2 b2
  rw [sumAt_append, sumAt_single, hz, hre w2 i2 b2]
  simp [movesSum]

/-! ### Invariant preservation by one transactional engine call -/

theorem runOp_wf_replEq {db : DB} (h : WF db ∧ ReplEq db) (op : Op) :
    WF (runOp db op).1 ∧ ReplEq (runOp db op).1 := by
  obtain ⟨hwf, hre⟩ := h
  cases op with
  | opIn w i q re rid b =>
    constructor
    · show WF (inventory_in db w i q re rid b)
      rw [inventory_in_eq]
      exact applyDelta_wf hwf
    · show ReplEq (inventory_in db w i q re rid b)
      rw [inventory_in_eq]
      exact applyDelta_replEq hwf hre rfl rfl
  | opOut w i q re rid b =>
    by_cases hc : curQty db w i b - q < -eps
    · simp only [runOp]
      rw [inventory_out_eq, if_pos hc]
      exact ⟨hwf, hre⟩
    · simp only [runOp]
      rw [inventory_out_eq, if_neg hc]
      exact ⟨applyDelta_wf hwf, applyDelta_replEq hwf hre rfl rfl⟩
  | opTransfer f t i q =>
    by_cases hc : curQty db f i none - q < -eps
    · simp only [runOp, transfer_stock]
      rw [inventory_out_eq, if_pos hc]
      exact ⟨hwf, hre⟩
    · simp only [runOp, transfer_stock]
      rw [inventory_out_eq, if_neg hc]
      have h1 : WF (applyDelta db f i none (-q) (outRec f i none q "TRANSFER" 0)) :=
        applyDelta_wf hwf
      have h1r : ReplEq (applyDelta db f i none (-q) (outRec f i none q "TRANSFER" 0)) :=
        applyDelta_replEq hwf hre rfl rfl
      have h2 : WF (inventory_in (applyDelta db f i none (-q)
          (outRec f i none q "TRANSFER" 0)) t i q "TRANSFER" 0 none) := by
        rw [inventory_in_eq]
        exact applyDelta_wf h1
      have h2r : ReplEq (inventory_in (applyDelta db f i none (-q)
          (outRec f i none q "TRANSFER" 0)) t i q "TRANSFER" 0 none) := by
        rw [inventory_in_eq]
        exact applyDelta_replEq h1 h1r rfl rfl
      exact ⟨h2, append_marker_replEq h2r rfl⟩

theorem runOp_nn {db : DB} (hnn : NN db) {op : Op} (hq : 0 < opQty op) :
    NN (runOp db op).1 := by
  cases op with
  | opIn w i q re rid b =>
    show NN (inventory_in db w i q re rid b)
    rw [inventory_in_eq]
    refine applyDelta_nn hnn ?_
    have h1 : -eps ≤ curQty db w i b := curQty_ge hnn
    have h2 : 0 < q := hq
    linarith
  | opOut w i q re rid b =>
    by_cases hc : curQty db w i b - q < -eps
    · simp only [runOp]
      rw [inventory_out_eq, if_pos hc]
      exact hnn
    · simp only [runOp]
      rw [inventory_out_eq, if_neg hc]
      refine applyDelta_nn hnn ?_
      rw [not_lt] at hc
      linarith
  | opTransfer f t i q =>
    by_cases hc : curQty db f i none - q < -eps
    · simp only [runOp, transfer_stock]
      rw [inventory_out_eq, if_pos hc]
      exact hnn
    · simp only [runOp, transfer_stock]
      rw [inventory_out_eq, if_neg hc]
      have h1 : NN (applyDelta db f i none (-q) (outRec f i none q "TRANSFER" 0)) := by
        refine applyDelta_nn hnn ?_
        rw [not_lt] at hc
        linarith
      have h2 : NN (inventory_in (applyDelta db f i none (-q)
          (outRec f i none q "TRANSFER" 0)) t i q "TRANSFER" 0 none) := by
        rw [inventory_in_eq]
        refine applyDelta_nn h1 ?_
        have h3 : -eps ≤ curQty (applyDelta db f i none (-q)
            (outRec f i none q "TRANSFER" 0)) t i none := curQty_ge h1
        have h4 : 0 < q := hq
        linarith
      exact h2

/-! ### Invariants of every reachable state -/

theorem runFrom_wf_replEq {db : DB} (h : WF db ∧ ReplEq db) (ops : List Op) :
    WF (runFrom db ops) ∧ ReplEq (runFrom db ops) := by
  induction ops generalizing db with
  | nil => exact h
  | cons op rest ih => exact ih (runOp_wf_replEq h op)

theorem run_wf (ops : List Op) : WF (run ops) :=
  (runFrom_wf_replEq ⟨wf_emptyDB, replEq_emptyDB⟩ ops).1

theorem run_replEq (ops : List Op) : ReplEq (run ops) :=
  (runFrom_wf_replEq ⟨wf_emptyDB, replEq_emptyDB⟩ ops).2

theorem runFrom_nn {db : DB} (hnn : NN db) {ops : List Op}
    (hq : ∀ op ∈ ops, 0 < opQty op) : NN (runFrom db ops) := by
  induction ops generalizing db with
  | nil => exact hnn
  | cons op rest ih =>
    exact ih (runOp_nn hnn (hq op (List.mem_cons_self op rest)))
      fun o ho => hq o (List.mem_cons_of_mem _ ho)

/-! ### Reading a member row through its key -/

theorem findInv_eq_of_mem {l : List InvRow} (hu : UniqKeys l) {r : InvRow} (hr : r ∈ l) :
    findInv l r.warehouse_id r.item_id r.bin_id = some r := by
  induction l with
  | nil => cases hr
  | cons s t ih =>
    obtain ⟨hst, ht⟩ := List.pairwise_cons.mp hu
    rw [findInv_cons]
    rcases List.mem_cons.mp hr with rfl | hmem
    · rw [if_pos (keyMatches_iff.mpr rfl)]
    · have hne : rowKey s ≠ rowKey r := hst r hmem
      have hkm : keyMatches s r.warehouse_id r.item_id r.bin_id = false := by
        cases hk : keyMatches s r.warehouse_id r.item_id r.bin_id
        · rfl
        · exact absurd (keyMatches_iff.mp hk) hne
      rw [hkm, if_neg (Bool.false_ne_true)]
      exact ih ht hmem

theorem row_qty_eq_curQty {db : DB} (hwf : WF db) {r : InvRow} (hr : r ∈ db.inv) :
    curQty db r.warehouse_id r.item_id r.bin_id = r.qty := by
  rw [curQty, findInv_eq_of_mem hwf.2.1 hr]

/-! ### Concrete states and facts used to instantiate the theorems below -/

theorem qty_short_emptyDB : curQty emptyDB 1 1 none - 5 < -eps := by
  norm_num [curQty, findInv, emptyDB, eps]

/-- A small well-formed state: warehouse 1 holds 50 of item 1. -/
def stockDB : DB := ⟨[⟨1, 1, 1, none, 50⟩], 2, [inRec 1 1 none 50 "GRN" 1]⟩

theorem wf_stockDB : WF stockDB := by
  refine ⟨?_, ?_, ?_⟩ <;> simp [stockDB, UniqIds, UniqKeys, IdsBelow]

theorem stockDB_enough : -eps ≤ curQty stockDB 1 1 none - 30 := by
  norm_num [curQty, findInv_cons, stockDB, keyMatches, eps]

theorem run_example_inv :
    (run [Op.opIn 1 1 5 "GRN" 1 none]).inv = [⟨1, 1, 1, none, (5 : ℚ)⟩] := by
  norm_num [run, runFrom, runOp, inventory_in, get_or_create_inv, findInv, emptyDB,
    updateQty, updRow, inRec]

theorem mem_run_example :
    (⟨1, 1, 1, none, (5 : ℚ)⟩ : InvRow) ∈ (run [Op.opIn 1 1 5 "GRN" 1 none]).inv := by
  rw [run_example_inv]
  exact List.mem_singleton_self _

theorem pos_example : ∀ op ∈ [Op.opIn 1 1 5 "GRN" 1 none], 0 < opQty op := by
  intro op ho
  rw [List.mem_singleton] at ho
  subst ho
  norm_num [opQty]

/-! ### The claims -/

/-- Claim C1: for every (well-formed) ledger state and OUT call, if the
current quantity minus the requested quantity is below −1e-6 the
transactional call fails with InsufficientStock and returns the state
exactly unchanged (no ledger update, no movement record appended);
otherwise it succeeds, persists the decreased quantity, leaves every other
key unchanged, and appends exactly one MovementRecord of kind OUT. -/
theorem out_fails_clean_or_persists (db : DB) (hwf : WF db) (w i : Nat) (q : ℚ)
    (re : String) (rid : Nat) (b : Option Nat) :
    (curQty db w i b - q < -eps →
      runOp db (.opOut w i q re rid b) =
        (db, some (.InsufficientStock w i (curQty db w i b) q)))
    ∧ (-eps ≤ curQty db w i b - q →
      (runOp db (.opOut w i q re rid b)).2 = none
      ∧ curQty (runOp db (.opOut w i q re rid b)).1 w i b = curQty db w i b - q
      ∧ (∀ w2 i2 b2, (w2, i2, b2) ≠ (w, i, b) →
          curQty (runOp db (.opOut w i q re rid b)).1 w2 i2 b2 = curQty db w2 i2 b2)
      ∧ (runOp db (.opOut w i q re rid b)).1.moves = db.moves ++ [outRec w i b q re rid]
      ∧ (outRec w i b q re rid).movement_type = MType.OUT) := by
  constructor
  · intro hc
    simp only [runOp]
    rw [inventory_out_eq, if_pos hc]
  · intro hc
    have hc2 : ¬(curQty db w i b - q < -eps) := not_lt.mpr hc
    simp only [runOp]
    rw [inventory_out_eq, if_neg hc2]
    refine ⟨rfl, ?_, ?_, ?_, rfl⟩
    · show curQty (applyDelta db w i b (-q) (outRec w i b q re rid)) w i b = _
      rw [applyDelta_curQty_self]
      ring
    · intro w2 i2 b2 hne
      show curQty (applyDelta db w i b (-q) (outRec w i b q re rid)) w2 i2 b2 = _
      exact applyDelta_curQty_other hwf hne
    · show (applyDelta db w i b (-q) (outRec w i b q re rid)).moves = _
      rw [applyDelta_moves]

theorem out_fails_clean_or_persists_w :
    runOp emptyDB (Op.opOut 1 1 5 "DO" 1 none) =
      (emptyDB, some (.InsufficientStock 1 1 (curQty emptyDB 1 1 none) 5)) :=
  (out_fails_clean_or_persists emptyDB wf_emptyDB 1 1 5 "DO" 1 none).1 qty_short_emptyDB

/-- Claim C4: for every ledger state, if the OUT leg of a TRANSFER would
drive the source below −1e-6, the whole transactional transfer call fails
with InsufficientStock and returns the state exactly unchanged: no IN at the
destination, no quantity change anywhere, and no movement record written for
either leg nor for the marker. -/
theorem transfer_out_fail_atomic (db : DB) (f t i : Nat) (q : ℚ)
    (hc : curQty db f i none - q < -eps) :
    runOp db (.opTransfer f t i q) =
      (db, some (.InsufficientStock f i (curQty db f i none) q)) := by
  simp only [runOp, transfer_stock]
  rw [inventory_out_eq, if_pos hc]

theorem transfer_out_fail_atomic_w :
    runOp emptyDB (Op.opTransfer 1 2 1 5) =
      (emptyDB, some (.InsufficientStock 1 1 (curQty emptyDB 1 1 none) 5)) :=
  transfer_out_fail_atomic emptyDB 1 2 1 5 qty_short_emptyDB

/-- Claim C5: from any (well-formed) state in which the source warehouse
holds at least Q of the item (up to the 1e-6 epsilon), a TRANSFER to a
distinct destination succeeds; the source StockLine decreases by exactly Q,
the destination StockLine increases by exactly Q, every other key is
unchanged, and exactly three MovementRecords are appended: one of kind OUT,
one of kind IN, and one TRANSFER marker carrying both the source and the
destination warehouse. -/
theorem transfer_conservation (db : DB) (hwf : WF db) (f t i : Nat) (q : ℚ)
    (hft : f ≠ t) (hq : -eps ≤ curQty db f i none - q) :
    ∃ db3, runOp db (.opTransfer f t i q) = (db3, none)
      ∧ curQty db3 f i none = curQty db f i none - q
      ∧ curQty db3 t i none = curQty db t i none + q
      ∧ (∀ w2 i2 b2, (w2, i2, b2) ≠ (f, i, none) → (w2, i2, b2) ≠ (t, i, none) →
          curQty db3 w2 i2 b2 = curQty db w2 i2 b2)
      ∧ db3.moves = db.moves ++
          [outRec f i none q "TRANSFER" 0, inRec t i none q "TRANSFER" 0,
           trRec f t i q "TRANSFER"]
      ∧ (outRec f i none q "TRANSFER" 0).movement_type = MType.OUT
      ∧ (inRec t i none q "TRANSFER" 0).movement_type = MType.IN
      ∧ (trRec f t i q "TRANSFER").movement_type = MType.TRANSFER
      ∧ (trRec f t i q "TRANSFER").warehouse_id = f
      ∧ (trRec f t i q "TRANSFER").warehouse_to_id = some t := by
  have hc : ¬(curQty db f i none - q < -eps) := not_lt.mpr hq
  have h1wf : WF (applyDelta db f i none (-q) (outRec f i none q "TRANSFER" 0)) :=
    applyDelta_wf hwf
  have hne_ft : ((f : Nat), i, (none : Option Nat)) ≠ (t, i, none) := by
    intro he
    exact hft (congrArg Prod.fst he)
  have hne_tf : ((t : Nat), i, (none : Option Nat)) ≠ (f, i, none) := by
    intro he
    exact hft (congrArg Prod.fst he).symm
  refine ⟨⟨(inventory_in (applyDelta db f i none (-q) (outRec f i none q "TRANSFER" 0))
      t i q "TRANSFER" 0 none).inv,
    (inventory_in (applyDelta db f i none (-q) (outRec f i none q "TRANSFER" 0))
      t i q "TRANSFER" 0 none).next_id,
    (inventory_in (applyDelta db f i none (-q) (outRec f i none q "TRANSFER" 0))
      t i q "TRANSFER" 0 none).moves ++ [trRec f t i q "TRANSFER"]⟩,
    ?_, ?_, ?_, ?_, ?_, rfl, rfl, rfl, rfl, rfl⟩
  · simp only [runOp, transfer_stock]
    rw [inventory_out_eq, if_neg hc]
  · show curQty (inventory_in (applyDelta db f i none (-q)
      (outRec f i none q "TRANSFER" 0)) t i q "TRANSFER" 0 none) f i none = _
    rw [inventory_in_eq, applyDelta_curQty_other h1wf hne_ft, applyDelta_curQty_self]
    ring
  · show curQty (inventory_in (applyDelta db f i none (-q)
      (outRec f i none q "TRANSFER" 0)) t i q "TRANSFER" 0 none) t i none = _
    rw [inventory_in_eq, applyDelta_curQty_self, applyDelta_curQty_other hwf hne_tf]
  · intro w2 i2 b2 hne2f hne2t
    show curQty (inventory_in (applyDelta db f i none (-q)
      (outRec f i none q "TRANSFER" 0)) t i q "TRANSFER" 0 none) w2 i2 b2 = _
    rw [inventory_in_eq, applyDelta_curQty_other h1wf hne2t, applyDelta_curQty_other hwf hne2f]
  · show (inventory_in (applyDelta db f i none (-q)
      (outRec f i none q "TRANSFER" 0)) t i q "TRANSFER" 0 none).moves ++ _ = _
    rw [inventory_in_eq, applyDelta_moves, applyDelta_moves]
    simp

theorem transfer_conservation_w :
    ∃ db3, runOp stockDB (.opTransfer 1 2 1 30) = (db3, none)
      ∧ curQty db3 1 1 none = curQty stockDB 1 1 none - 30
      ∧ curQty db3 2 1 none = curQty stockDB 2 1 none + 30
      ∧ (∀ w2 i2 b2, (w2, i2, b2) ≠ (1, 1, none) → (w2, i2, b2) ≠ (2, 1, none) →
          curQty db3 w2 i2 b2 = curQty stockDB w2 i2 b2)
      ∧ db3.moves = stockDB.moves ++
          [outRec 1 1 none 30 "TRANSFER" 0, inRec 2 1 none 30 "TRANSFER" 0,
           trRec 1 2 1 30 "TRANSFER"]
      ∧ (outRec 1 1 none 30 "TRANSFER" 0).movement_type = MType.OUT
      ∧ (inRec 2 1 none 30 "TRANSFER" 0).movement_type = MType.IN
      ∧ (trRec 1 2 1 30 "TRANSFER").movement_type = MType.TRANSFER
      ∧ (trRec 1 2 1 30 "TRANSFER").warehouse_id = 1
      ∧ (trRec 1 2 1 30 "TRANSFER").warehouse_to_id = some 2 :=
  transfer_conservation stockDB wf_stockDB 1 2 1 30 (by norm_num) stockDB_enough

/-- Claim C10 (implicit): a TRANSFER whose source and destination coincide
is not rejected when the warehouse holds enough stock (up to the epsilon):
it succeeds, leaves every on-hand quantity unchanged (the OUT and IN legs
cancel), and still appends three MovementRecords (OUT, IN, TRANSFER). -/
theorem transfer_same_warehouse (db : DB) (hwf : WF db) (w i : Nat) (q : ℚ)
    (hq : -eps ≤ curQty db w i none - q) :
    ∃ db3, runOp db (.opTransfer w w i q) = (db3, none)
      ∧ (∀ w2 i2 b2, curQty db3 w2 i2 b2 = curQty db w2 i2 b2)
      ∧ db3.moves = db.moves ++
          [outRec w i none q "TRANSFER" 0, inRec w i none q "TRANSFER" 0,
           trRec w w i q "TRANSFER"]
      ∧ (outRec w i none q "TRANSFER" 0).movement_type = MType.OUT
      ∧ (inRec w i none q "TRANSFER" 0).movement_type = MType.IN
      ∧ (trRec w w i q "TRANSFER").movement_type = MType.TRANSFER := by
  have hc : ¬(curQty db w i none - q < -eps) := not_lt.mpr hq
  have h1wf : WF (applyDelta db w i none (-q) (outRec w i none q "TRANSFER" 0)) :=
    applyDelta_wf hwf
  refine ⟨⟨(inventory_in (applyDelta db w i none (-q) (outRec w i none q "TRANSFER" 0))
      w i q "TRANSFER" 0 none).inv,
    (inventory_in (applyDelta db w i none (-q) (outRec w i none q "TRANSFER" 0))
      w i q "TRANSFER" 0 none).next_id,
    (inventory_in (applyDelta db w i none (-q) (outRec w i none q "TRANSFER" 0))
      w i q "TRANSFER" 0 none).moves ++ [trRec w w i q "TRANSFER"]⟩,
    ?_, ?_, ?_, rfl, rfl, rfl⟩
  · simp only [runOp, transfer_stock]
    rw [inventory_out_eq, if_neg hc]
  · intro w2 i2 b2
    show curQty (inventory_in (applyDelta db w i none (-q)
      (outRec w i none q "TRANSFER" 0)) w i q "TRANSFER" 0 none) w2 i2 b2 = _
    by_cases hk : (w2, i2, b2) = (w, i, none)
    · simp only [Prod.ext_iff] at hk
      obtain ⟨rfl, rfl, rfl⟩ := hk
      rw [inventory_in_eq, applyDelta_curQty_self, applyDelta_curQty_self]
      ring
    · rw [inventory_in_eq, applyDelta_curQty_other h1wf hk, applyDelta_curQty_other hwf hk]
  · show (inventory_in (applyDelta db w i none (-q)
      (outRec w i none q "TRANSFER" 0)) w i q "TRANSFER" 0 none).moves ++ _ = _
    rw [inventory_in_eq, applyDelta_moves, applyDelta_moves]
    simp

theorem transfer_same_warehouse_w :
    ∃ db3, runOp stockDB (.opTransfer 1 1 1 30) = (db3, none)
      ∧ (∀ w2 i2 b2, curQty db3 w2 i2 b2 = curQty stockDB w2 i2 b2)
      ∧ db3.moves = stockDB.moves ++
          [outRec 1 1 none 30 "TRANSFER" 0, inRec 1 1 none 30 "TRANSFER" 0,
           trRec 1 1 1 30 "TRANSFER"]
      ∧ (outRec 1 1 none 30 "TRANSFER" 0).movement_type = MType.OUT
      ∧ (inRec 1 1 none 30 "TRANSFER" 0).movement_type = MType.IN
      ∧ (trRec 1 1 1 30 "TRANSFER").movement_type = MType.TRANSFER :=
  transfer_same_warehouse stockDB wf_stockDB 1 1 30 stockDB_enough

/-- Claim C2: replay-equivalence.  For every sequence of engine operations
starting from the empty ledger, every StockLine's current quantity equals
the signed sum of all MovementRecords affecting its (warehouse, item, bin)
key — IN records add, OUT records subtract, and a TRANSFER is modelled by
its linked OUT+IN leg pair (the marker itself contributes nothing). -/
theorem replay_equivalence (ops : List Op) :
    ∀ r ∈ (run ops).inv,
      r.qty = movesSum (run ops) r.warehouse_id r.item_id r.bin_id := by
  intro r hr
  have h := run_replEq ops r.warehouse_id r.item_id r.bin_id
  rw [← h, row_qty_eq_curQty (run_wf ops) hr]

theorem replay_equivalence_w :
    (⟨1, 1, 1, none, (5 : ℚ)⟩ : InvRow) ∈ (run [Op.opIn 1 1 5 "GRN" 1 none]).inv
    ∧ (⟨1, 1, 1, none, (5 : ℚ)⟩ : InvRow).qty
        = movesSum (run [Op.opIn 1 1 5 "GRN" 1 none]) 1 1 none :=
  ⟨mem_run_example, replay_equivalence [Op.opIn 1 1 5 "GRN" 1 none] _ mem_run_example⟩

/-- Claim C3: non-negativity.  For every sequence of IN/OUT/TRANSFER
operations (with the positive quantities of the operation signatures)
starting from the empty ledger, no StockLine is ever left strictly below
−1e-6. -/
theorem non_negativity (ops : List Op) (hpos : ∀ op ∈ ops, 0 < opQty op) :
    ∀ r ∈ (run ops).inv, -eps ≤ r.qty :=
  runFrom_nn nn_emptyDB hpos

theorem non_negativity_w :
    (∀ op ∈ [Op.opIn 1 1 5 "GRN" 1 none], 0 < opQty op)
    ∧ -eps ≤ (⟨1, 1, 1, none, (5 : ℚ)⟩ : InvRow).qty :=
  ⟨pos_example, non_negativity [Op.opIn 1 1 5 "GRN" 1 none] pos_example _ mem_run_example⟩

/-- Claim C6 counterexample: `inventory_in` performs no quantity validation.
An IN call with quantity −5 (≤ 0) does not fail — the transactional call
reports no error — and it does write: it appends a movement record and
leaves the StockLine at −5. -/
theorem in_no_validation_cx :
    (runOp emptyDB (Op.opIn 1 1 (-5) "GRN" 1 none)).2 = none
    ∧ (runOp emptyDB (Op.opIn 1 1 (-5) "GRN" 1 none)).1.moves.length = 1
    ∧ curQty (runOp emptyDB (Op.opIn 1 1 (-5) "GRN" 1 none)).1 1 1 none = -5 := by
  refine ⟨rfl, rfl, ?_⟩
  norm_num [runOp, inventory_in, get_or_create_inv, findInv, emptyDB, updateQty,
    curQty, keyMatches, List.find?]

/-- Claim C6 amended: IN never rejects a quantity.  For every quantity —
positive, zero or negative — the call succeeds, adds the quantity to the
StockLine, leaves every other key unchanged, and appends exactly one
MovementRecord of kind IN. -/
theorem in_always_succeeds (db : DB) (hwf : WF db) (w i : Nat) (q : ℚ)
    (re : String) (rid : Nat) (b : Option Nat) :
    (runOp db (.opIn w i q re rid b)).2 = none
    ∧ curQty (runOp db (.opIn w i q re rid b)).1 w i b = curQty db w i b + q
    ∧ (∀ w2 i2 b2, (w2, i2, b2) ≠ (w, i, b) →
        curQty (runOp db (.opIn w i q re rid b)).1 w2 i2 b2 = curQty db w2 i2 b2)
    ∧ (runOp db (.opIn w i q re rid b)).1.moves = db.moves ++ [inRec w i b q re rid]
    ∧ (inRec w i b q re rid).movement_type = MType.IN := by
  refine ⟨rfl, ?_, ?_, ?_, rfl⟩
  · show curQty (inventory_in db w i q re rid b) w i b = _
    rw [inventory_in_eq, applyDelta_curQty_self]
  · intro w2 i2 b2 hne
    show curQty (inventory_in db w i q re rid b) w2 i2 b2 = _
    rw [inventory_in_eq]
    exact applyDelta_curQty_other hwf hne
  · show (inventory_in db w i q re rid b).moves = _
    rw [inventory_in_eq, applyDelta_moves]

theorem in_always_succeeds_w :
    WF emptyDB ∧ (runOp emptyDB (Op.opIn 1 1 0 "GRN" 1 none)).1.moves
      = emptyDB.moves ++ [inRec 1 1 none 0 "GRN" 1] :=
  ⟨wf_emptyDB, (in_always_succeeds emptyDB wf_emptyDB 1 1 0 "GRN" 1 none).2.2.2.1⟩

/-- Claim C9 counterexample: the reason of an appended IN record is the
fixed string "GRN", independent of the referenceEntityType argument — in
particular an IN invoked with referenceEntityType "TRANSFER" still records
reason "GRN". -/
theorem in_reason_fixed_cx :
    (inventory_in emptyDB 1 1 5 "TRANSFER" 0 none).moves.map Movement.reason = ["GRN"]
    ∧ (inventory_in emptyDB 1 1 5 "DO" 2 none).moves.map Movement.reason = ["GRN"] :=
  ⟨rfl, rfl⟩

/-- Claim C9 amended: every IN appends exactly one MovementRecord whose
reason is the constant "GRN" whatever the referenceEntityType argument is;
that argument is stored in the record's ref_entity column instead. -/
theorem in_reason_always_grn (db : DB) (w i : Nat) (q : ℚ) (re : String)
    (rid : Nat) (b : Option Nat) :
    (inventory_in db w i q re rid b).moves = db.moves ++ [inRec w i b q re rid]
    ∧ (inRec w i b q re rid).reason = "GRN"
    ∧ (inRec w i b q re rid).ref_entity = re := by
  refine ⟨?_, rfl, rfl⟩
  rw [inventory_in_eq, applyDelta_moves]

/-- Claim C8: `get_or_create_inv` is an idempotent lookup.  Calling it twice
with the same key returns the same row both times and the second call does
not change the state at all; it never touches the Movement Log; when the row
exists it is returned with no state change whatsoever, and when it is absent
the only effect is the creation of that single row at quantity 0. -/
theorem gocr_idempotent (db : DB) (w i : Nat) (b : Option Nat) :
    (get_or_create_inv (get_or_create_inv db w i b).1 w i b).2
      = (get_or_create_inv db w i b).2
    ∧ (get_or_create_inv (get_or_create_inv db w i b).1 w i b).1
      = (get_or_create_inv db w i b).1
    ∧ (get_or_create_inv db w i b).1.moves = db.moves
    ∧ (∀ r, findInv db.inv w i b = some r → get_or_create_inv db w i b = (db, r))
    ∧ (findInv db.inv w i b = none →
        (get_or_create_inv db w i b).1.inv = db.inv ++ [⟨db.next_id, w, i, b, 0⟩]
        ∧ (get_or_create_inv db w i b).2 = ⟨db.next_id, w, i, b, 0⟩
        ∧ (get_or_create_inv db w i b).2.qty = 0) := by
  cases h : findInv db.inv w i b with
  | some r => simp [get_or_create_inv, h]
  | none =>
    have h2 : findInv (db.inv ++ [⟨db.next_id, w, i, b, 0⟩]) w i b
        = some ⟨db.next_id, w, i, b, 0⟩ := by
      rw [findInv_append, h]
      show findInv [⟨db.next_id, w, i, b, 0⟩] w i b = _
      rw [findInv_cons, if_pos (keyMatches_iff.mpr rfl)]
    simp [get_or_create_inv, h, h2]

theorem gocr_idempotent_w :
    findInv emptyDB.inv 1 1 none = none
    ∧ (get_or_create_inv emptyDB 1 1 none).1.inv
        = emptyDB.inv ++ [⟨1, 1, 1, none, 0⟩] :=
  ⟨rfl, ((gocr_idempotent emptyDB 1 1 none).2.2.2.2 rfl).1⟩
